import Mathlib

/-!
Verification of the wildfire-exposure pipeline script
(`wildfire_exposure_v02.py`) against its specification.

Modelling conventions:
* Python floats are modelled as exact rationals (`ℚ`); `None` and float `NaN`
  (which coincide in a pandas float column: assigning `None` into a float
  series stores `NaN`) are both modelled as `none : Option ℚ`.
* The external `rasterstats.zonal_stats` library call is abstracted over the
  raster: a parameter `zs` maps one polygon to its (possibly null) record, and
  the library returns exactly one record per input vector, in input order.
* Fallible code returns `Option`: Python's `range(0, total, 0)` raises
  `ValueError`, modelled as a `none` result of `run_chunked_zonal_stats`.
-/

/-- Per-buffer zonal-statistic record, mirroring the dict produced by
`zonal_stats(..., stats=["mean", "min", "count", "nodata"])`.  `mean` and
`min` may be `None` (no valid cell), modelled as `none`; `nodata` is the
per-polygon count of nodata cells, whose key may be missing — the script
reads it with `s.get("nodata", 0)`. -/
structure StatRecord where
  mean : Option ℚ
  min : Option ℚ
  count : ℚ
  nodata : Option ℚ
deriving DecidableEq

/-- Model of the external `rasterstats.zonal_stats(vectors, raster, ...)` call,
abstracted over the raster: `zs` is the per-polygon aggregation the raster
induces, and the library returns one (possibly null) record per input vector,
in input order. -/
def zonal_stats {γ : Type} (zs : γ → Option StatRecord) (vectors : List γ) :
    List (Option StatRecord) :=
  vectors.map zs

/-- Body of the `for start in range(0, total, chunk_size)` loop of
`run_chunked_zonal_stats`.  `fuel` bounds the number of remaining iterations
(the caller passes `gdf.length`, which suffices for every positive
`chunk_size`).  Besides the `all_stats` accumulator it also records the list
of chunks handed to `zonal_stats`, so theorems can speak about the batches the
loop issued; the Python loop computes `end = min(start + chunk_size, total)`
and slices `gdf.iloc[start:end]`. -/
def zonalLoop {γ : Type} (zs : γ → Option StatRecord) (gdf : List γ) (chunk_size : ℕ) :
    ℕ → ℕ → List (Option StatRecord) → List (List γ) →
    List (Option StatRecord) × List (List γ)
  | 0, _, all_stats, batches => (all_stats, batches)
  | fuel + 1, start, all_stats, batches =>
    if start < gdf.length then
      let stop := min (start + chunk_size) gdf.length
      let chunk := (gdf.drop start).take (stop - start)
      zonalLoop zs gdf chunk_size fuel (start + chunk_size)
        (all_stats ++ zonal_stats zs chunk) (batches ++ [chunk])
    else (all_stats, batches)

/-- Shallow embedding of `run_chunked_zonal_stats(gdf, raster_path, chunk_size,
nodata)`.  The raster path and nodata argument are absorbed into the abstract
per-polygon function `zs`.  A zero `chunk_size` makes Python's
`range(0, total, 0)` raise `ValueError`, modelled as `none`. -/
def run_chunked_zonal_stats {γ : Type} (zs : γ → Option StatRecord) (gdf : List γ)
    (chunk_size : ℕ) : Option (List (Option StatRecord)) :=
  if chunk_size = 0 then none
  else some (zonalLoop zs gdf chunk_size gdf.length 0 [] []).1

/-- Same loop, additionally reporting the list of batches (chunks) that were
handed to `zonal_stats`, in order; `batches.length` is the number of
`zonal_stats` invocations the loop performed. -/
def run_chunked_zonal_stats_batches {γ : Type} (zs : γ → Option StatRecord)
    (gdf : List γ) (chunk_size : ℕ) :
    Option (List (Option StatRecord) × List (List γ)) :=
  if chunk_size = 0 then none
  else some (zonalLoop zs gdf chunk_size gdf.length 0 [] [])

/-- The script's default chunk size (`chunk_size=10000`); the script calls
`run_chunked_zonal_stats(buffered, fire_file)` with this default. -/
def chunk_size_default : ℕ := 10000

/-- One element of the `burn_mean` column:
`s["mean"] if s else None`. -/
def burn_mean (s : Option StatRecord) : Option ℚ :=
  s.bind StatRecord.mean

/-- One element of the `burn_exposed` column:
`1 if s and s["min"] != 65535 and s["count"] > s.get("nodata", 0) else 0`.
A null (falsy) record gives `0`; a Python `None` minimum compares unequal to
`65535`, which the `Option ℚ` inequality reproduces. -/
def burn_exposed (s : Option StatRecord) : ℤ :=
  match s with
  | none => 0
  | some r => if r.min ≠ some 65535 ∧ r.nodata.getD 0 < r.count then 1 else 0

/-- Pandas `Series.min()` with its default `skipna=True`: the minimum of the
non-null entries, `none` (NaN) when there are none. -/
def seriesMin (xs : List (Option ℚ)) : Option ℚ :=
  (xs.filterMap id).min?

/-- Pandas `Series.max()` with its default `skipna=True`. -/
def seriesMax (xs : List (Option ℚ)) : Option ℚ :=
  (xs.filterMap id).max?

/-- NaN-propagating float subtraction on nullable values (`none` is NaN). -/
def fsub : Option ℚ → Option ℚ → Option ℚ
  | some x, some y => some (x - y)
  | _, _ => none

/-- NaN-propagating float division on nullable values.  A zero denominator
yields a non-finite float, modelled as `none`; in this script the numerator is
then necessarily zero as well (every mean lies between the series minimum and
maximum), so the non-finite value is the NaN produced by `0.0 / 0.0`. -/
def fdiv : Option ℚ → Option ℚ → Option ℚ
  | some x, some y => if y = 0 then none else some (x / y)
  | _, _ => none

/-- The `burn_norm` column:
`(pipe["burn_mean"] - pipe["burn_mean"].min()) / (pipe["burn_mean"].max() - pipe["burn_mean"].min())`,
computed elementwise over the column with NaN propagation. -/
def burn_norm_series (means : List (Option ℚ)) : List (Option ℚ) :=
  means.map fun m =>
    fdiv (fsub m (seriesMin means)) (fsub (seriesMax means) (seriesMin means))

/-- A row of the `pipe` GeoDataFrame as loaded (after CRS reprojection and
clipping): its original attributes (abstract type `A`) and its original
geometry (abstract type `G`). -/
structure PipeRow (A G : Type) where
  attrs : A
  geometry : G
deriving DecidableEq

/-- A row of the GeoDataFrame serialized by `pipe.to_file(...)`: the original
attributes and geometry plus exactly the three derived scalar columns; the
transient `buffer_500m` column has been dropped (`pipe.drop(columns="buffer_500m")`). -/
structure ExportRow (A G : Type) where
  attrs : A
  geometry : G
  burn_mean : Option ℚ
  burn_exposed : ℤ
  burn_norm : Option ℚ
deriving DecidableEq

/-- Shallow embedding of the script's derivation stages (sections 1–4 of the
source): buffer each geometry (`pipe.geometry.buffer(500)` abstracted as
`buffer`), run the chunked zonal stats with the default chunk size, derive the
`burn_mean`, `burn_exposed` and `burn_norm` columns, and form the exported
rows with the buffer column dropped.  `none` models an aborted run. -/
def exportRows {A G : Type} (zs : G → Option StatRecord) (buffer : G → G)
    (pipe : List (PipeRow A G)) : Option (List (ExportRow A G)) :=
  match run_chunked_zonal_stats zs (pipe.map fun r => buffer r.geometry)
      chunk_size_default with
  | none => none
  | some burn_stats =>
    let means := burn_stats.map burn_mean
    let flags := burn_stats.map burn_exposed
    let norms := burn_norm_series means
    some (List.zipWith (fun r c => ⟨r.attrs, r.geometry, c.1, c.2.1, c.2.2⟩)
      pipe (means.zip (flags.zip norms)))

/-- The consecutive batches `[start, min(start + c, N))` of a list: the `j`-th
batch is the slice of length at most `c` starting at index `j * c`, and there
are `⌈N / c⌉` of them. -/
def chunks {γ : Type} (c : ℕ) (l : List γ) : List (List γ) :=
  (List.range ((l.length + c - 1) / c)).map fun j => (l.drop (j * c)).take c

/-! ## Helper lemmas about `chunks` -/

/-- Peeling one batch off the ceiling division that counts the batches. -/
theorem ceil_div_succ {c m : ℕ} (hc : 0 < c) (hm : 0 < m) :
    (m + c - 1) / c = (m - c + c - 1) / c + 1 := by
  rcases le_or_lt m c with h | h
  · have h2 : m - c = 0 := by omega
    have h1 : m + c - 1 = (m - 1) + c := by omega
    rw [h1, Nat.add_div_right _ hc, h2, Nat.div_eq_of_lt (by omega),
      Nat.div_eq_of_lt (by omega)]
  · have h1 : m + c - 1 = (m - c + c - 1) + c := by omega
    rw [h1, Nat.add_div_right _ hc]

theorem chunks_nil {γ : Type} (c : ℕ) : chunks c ([] : List γ) = [] := by
  have h : (c - 1) / c = 0 := by
    rcases Nat.eq_zero_or_pos c with h | h
    · simp [h]
    · exact Nat.div_eq_of_lt (by omega)
  simp [chunks, h]

theorem chunks_cons {γ : Type} {c : ℕ} (hc : 0 < c) {l : List γ} (hl : l ≠ []) :
    chunks c l = l.take c :: chunks c (l.drop c) := by
  have hm : 0 < l.length := List.length_pos.mpr hl
  unfold chunks
  rw [List.length_drop, ceil_div_succ hc hm, List.range_succ_eq_map, List.map_cons,
    List.map_map]
  refine congrArg₂ List.cons (by simp) ?_
  refine List.map_congr_left fun j hj => ?_
  simp only [Function.comp_apply, List.drop_drop, Nat.succ_mul]
  rw [Nat.add_comm (j * c) c, Nat.add_comm c (j * c)]

theorem chunks_join_of_le {γ : Type} {c : ℕ} (hc : 0 < c) :
    ∀ (n : ℕ) (l : List γ), l.length ≤ n → (chunks c l).flatten = l := by
  intro n
  induction n with
  | zero =>
    intro l h
    have hl : l = [] := by cases l <;> simp_all
    simp [hl, chunks_nil]
  | succ n ih =>
    intro l h
    rcases eq_or_ne l [] with hl | hl
    · simp [hl, chunks_nil]
    · have hlen : (l.drop c).length ≤ n := by
        have := List.length_pos.mpr hl
        rw [List.length_drop]; omega
      rw [chunks_cons hc hl, List.flatten_cons, ih _ hlen, List.take_append_drop]

theorem chunks_join {γ : Type} {c : ℕ} (hc : 0 < c) (l : List γ) :
    (chunks c l).flatten = l :=
  chunks_join_of_le hc l.length l le_rfl

theorem chunks_length_le {γ : Type} {c : ℕ} {l : List γ} {b : List γ}
    (hb : b ∈ chunks c l) : b.length ≤ c := by
  rcases List.mem_map.mp hb with ⟨j, _, rfl⟩
  exact List.length_take_le c (l.drop (j * c))

/-! ## Characterization of the chunked loop -/

theorem zonalLoop_spec {γ : Type} (zs : γ → Option StatRecord) (gdf : List γ) {c : ℕ}
    (hc : 0 < c) :
    ∀ (fuel start : ℕ) (acc : List (Option StatRecord)) (batches : List (List γ)),
      gdf.length ≤ start + fuel →
      zonalLoop zs gdf c fuel start acc batches =
        (acc ++ (gdf.drop start).map zs, batches ++ chunks c (gdf.drop start)) := by
  intro fuel
  induction fuel with
  | zero =>
    intro start acc batches h
    have hd : gdf.drop start = [] := List.drop_eq_nil_of_le (by omega)
    simp [zonalLoop, hd, chunks_nil]
  | succ fuel ih =>
    intro start acc batches h
    by_cases hs : start < gdf.length
    · have hne : gdf.drop start ≠ [] := by
        intro hnil
        have := congrArg List.length hnil
        rw [List.length_drop] at this
        simp at this; omega
      have hchunk : (gdf.drop start).take (min (start + c) gdf.length - start)
          = (gdf.drop start).take c := by
        refine List.take_eq_take.mpr ?_
        rw [List.length_drop]
        omega
      have hdd : gdf.drop (start + c) = (gdf.drop start).drop c := by
        rw [List.drop_drop, Nat.add_comm]
      simp only [zonalLoop, if_pos hs]
      rw [hchunk, ih (start + c) _ _ (by omega), hdd, chunks_cons hc hne]
      simp only [zonal_stats, Prod.mk.injEq, List.append_assoc]
      constructor
      · rw [← List.map_append, List.take_append_drop]
      · simp
    · simp only [zonalLoop, if_neg hs]
      have hd : gdf.drop start = [] := List.drop_eq_nil_of_le (by omega)
      simp [hd, chunks_nil]

/-- For a positive chunk size, the chunked run returns exactly the pointwise
zonal-statistic records of the input polygons, in input order. -/
theorem run_chunked_eq_map {γ : Type} (zs : γ → Option StatRecord) (gdf : List γ)
    {c : ℕ} (hc : 0 < c) :
    run_chunked_zonal_stats zs gdf c = some (gdf.map zs) := by
  unfold run_chunked_zonal_stats
  rw [if_neg (Nat.pos_iff_ne_zero.mp hc),
    zonalLoop_spec zs gdf hc gdf.length 0 [] [] (by omega)]
  simp

/-- For a positive chunk size, the instrumented run returns the pointwise
records together with the consecutive batches it issued. -/
theorem run_chunked_batches_eq {γ : Type} (zs : γ → Option StatRecord) (gdf : List γ)
    {c : ℕ} (hc : 0 < c) :
    run_chunked_zonal_stats_batches zs gdf c = some (gdf.map zs, chunks c gdf) := by
  unfold run_chunked_zonal_stats_batches
  rw [if_neg (Nat.pos_iff_ne_zero.mp hc),
    zonalLoop_spec zs gdf hc gdf.length 0 [] [] (by omega)]
  simp

/-! ## Helper lemmas about the normalization -/

theorem min?_le_of_mem {l : List ℚ} {a x : ℚ} (h : l.min? = some a) (hx : x ∈ l) :
    a ≤ x :=
  (List.le_min?_iff (fun _ _ _ => le_min_iff) h).mp le_rfl x hx

theorem le_max?_of_mem {l : List ℚ} {b x : ℚ} (h : l.max? = some b) (hx : x ∈ l) :
    x ≤ b :=
  (List.max?_le_iff (fun _ _ _ => max_le_iff) h).mp le_rfl x hx

/-- Every non-null value the normalization produces lies in `[0, 1]`. -/
theorem burn_norm_series_bounds {means : List (Option ℚ)} {y : ℚ}
    (h : some y ∈ burn_norm_series means) : 0 ≤ y ∧ y ≤ 1 := by
  rcases List.mem_map.mp h with ⟨m, hm, hf⟩
  cases m with
  | none => simp [fsub, fdiv] at hf
  | some x =>
    cases hmn : seriesMin means with
    | none => rw [hmn] at hf; simp [fsub, fdiv] at hf
    | some a =>
      cases hmx : seriesMax means with
      | none => rw [hmn, hmx] at hf; simp [fsub, fdiv] at hf
      | some b =>
        rw [hmn, hmx] at hf
        simp only [fsub, fdiv] at hf
        by_cases hba : b - a = 0
        · rw [if_pos hba] at hf; exact absurd hf (by simp)
        · rw [if_neg hba] at hf
          have hy : (x - a) / (b - a) = y := by
            simpa using hf
          have hxmem : x ∈ means.filterMap id :=
            List.mem_filterMap.mpr ⟨some x, hm, rfl⟩
          have hax : a ≤ x := min?_le_of_mem (by simpa [seriesMin] using hmn) hxmem
          have hxb : x ≤ b := le_max?_of_mem (by simpa [seriesMax] using hmx) hxmem
          have hab : a < b :=
            lt_of_le_of_ne (hax.trans hxb) (Ne.symm (sub_ne_zero.mp hba))
          constructor
          · rw [← hy]
            exact div_nonneg (by linarith) (by linarith)
          · rw [← hy, div_le_one (by linarith)]
            linarith

/-- When the column has two distinct non-null values, every entry is the
min-max normalization formula applied to it (nulls staying null). -/
theorem burn_norm_series_eq_of_ne {means : List (Option ℚ)} {a b : ℚ}
    (hmn : seriesMin means = some a) (hmx : seriesMax means = some b) (hab : a ≠ b) :
    burn_norm_series means = means.map (Option.map fun x => (x - a) / (b - a)) := by
  unfold burn_norm_series
  rw [hmn, hmx]
  refine List.map_congr_left fun m _ => ?_
  cases m with
  | none => simp [fsub, fdiv]
  | some x => simp [fsub, fdiv, sub_ne_zero.mpr (Ne.symm hab)]

/-- When the non-null values exist but all coincide, every denominator is the
float `0.0` and every entry of the normalized column is null (`0.0 / 0.0`). -/
theorem burn_norm_series_eq_of_eq {means : List (Option ℚ)} {a : ℚ}
    (hmn : seriesMin means = some a) (hmx : seriesMax means = some a) :
    burn_norm_series means = means.map fun _ => none := by
  unfold burn_norm_series
  rw [hmn, hmx]
  refine List.map_congr_left fun m _ => ?_
  cases m <;> simp [fsub, fdiv]

/-- An all-null mean column yields an all-null normalized column. -/
theorem burn_norm_series_all_none {means : List (Option ℚ)}
    (h : ∀ m ∈ means, m = none) :
    burn_norm_series means = means.map fun _ => none := by
  unfold burn_norm_series
  refine List.map_congr_left fun m hm => ?_
  rw [h m hm]
  simp [fsub, fdiv]

theorem burn_norm_series_length (means : List (Option ℚ)) :
    (burn_norm_series means).length = means.length := by
  simp [burn_norm_series]

/-! ## Helper lemmas about the export stage -/

/-- The zonal-statistic records of the buffered geometries, in row order. -/
def pipeStats {A G : Type} (zs : G → Option StatRecord) (buffer : G → G)
    (pipe : List (PipeRow A G)) : List (Option StatRecord) :=
  (pipe.map fun r => buffer r.geometry).map zs

/-- The `burn_mean` column of the script, as a function of its inputs. -/
def pipeMeans {A G : Type} (zs : G → Option StatRecord) (buffer : G → G)
    (pipe : List (PipeRow A G)) : List (Option ℚ) :=
  (pipeStats zs buffer pipe).map burn_mean

theorem exportRows_eq {A G : Type} (zs : G → Option StatRecord) (buffer : G → G)
    (pipe : List (PipeRow A G)) :
    exportRows zs buffer pipe =
      some (List.zipWith (fun r c => ⟨r.attrs, r.geometry, c.1, c.2.1, c.2.2⟩) pipe
        ((pipeMeans zs buffer pipe).zip
          (((pipeStats zs buffer pipe).map burn_exposed).zip
            (burn_norm_series (pipeMeans zs buffer pipe))))) := by
  unfold exportRows
  rw [run_chunked_eq_map zs _ (by decide)]
  rfl

theorem exportRows_length {A G : Type} {zs : G → Option StatRecord} {buffer : G → G}
    {pipe : List (PipeRow A G)} {out : List (ExportRow A G)}
    (h : exportRows zs buffer pipe = some out) :
    out.length = pipe.length := by
  rw [exportRows_eq] at h
  injection h with h
  subst h
  simp [List.length_zipWith, pipeMeans, pipeStats, burn_norm_series]

/-- Row-level description of the exported collection: row `i` carries the
`i`-th original attributes and geometry, and the derived columns computed
from the `i`-th buffered geometry's zonal-statistic record. -/
theorem exportRows_getElem? {A G : Type} {zs : G → Option StatRecord} {buffer : G → G}
    {pipe : List (PipeRow A G)} {out : List (ExportRow A G)}
    (h : exportRows zs buffer pipe = some out) (i : ℕ) (hi : i < pipe.length) :
    out[i]? = some ⟨(pipe.get ⟨i, hi⟩).attrs, (pipe.get ⟨i, hi⟩).geometry,
      burn_mean (zs (buffer (pipe.get ⟨i, hi⟩).geometry)),
      burn_exposed (zs (buffer (pipe.get ⟨i, hi⟩).geometry)),
      fdiv (fsub (burn_mean (zs (buffer (pipe.get ⟨i, hi⟩).geometry)))
          (seriesMin (pipeMeans zs buffer pipe)))
        (fsub (seriesMax (pipeMeans zs buffer pipe))
          (seriesMin (pipeMeans zs buffer pipe)))⟩ := by
  rw [exportRows_eq] at h
  injection h with h
  subst h
  have hp : pipe[i]? = some (pipe.get ⟨i, hi⟩) := by
    rw [List.getElem?_eq_getElem hi]
    simp
  rw [List.getElem?_zipWith, hp]
  unfold List.zip
  rw [List.getElem?_zipWith, List.getElem?_zipWith]
  simp only [burn_norm_series, pipeMeans, pipeStats, List.getElem?_map, hp]
  simp

/-- The `burn_exposed` column only ever holds the integers 0 and 1. -/
theorem burn_exposed_eq_zero_or_one (s : Option StatRecord) :
    burn_exposed s = 0 ∨ burn_exposed s = 1 := by
  cases s with
  | none => exact Or.inl rfl
  | some r =>
    by_cases h : r.min ≠ some 65535 ∧ r.nodata.getD 0 < r.count
    · exact Or.inr (by simp only [burn_exposed, if_pos h])
    · exact Or.inl (by simp only [burn_exposed, if_neg h])

/-! ## Claims -/

/-- Concrete per-polygon record function used by witness instantiations. -/
def zsW : ℕ → Option StatRecord := fun n => some ⟨some n, some 1, 1, none⟩

/-- C1: for every input sequence of buffer polygons (and every raster,
abstracted as the per-polygon record function `zs`) and every positive chunk
size, `run_chunked_zonal_stats` returns a list of exactly `N` records whose
`i`-th element is the zonal-statistic record of the `i`-th input polygon —
every buffer yields exactly one (possibly null) record, and batch boundaries
never drop or reorder features. -/
theorem claim_C1_output_is_identity_aligned {γ : Type} (zs : γ → Option StatRecord)
    (gdf : List γ) (c : ℕ) (hc : 0 < c) :
    run_chunked_zonal_stats zs gdf c = some (gdf.map zs) ∧
    (gdf.map zs).length = gdf.length ∧
    ∀ i : ℕ, (gdf.map zs)[i]? = gdf[i]?.map zs :=
  ⟨run_chunked_eq_map zs gdf hc, by simp, fun i => by simp⟩

theorem claim_C1_witness :
    run_chunked_zonal_stats zsW [5, 7] 2 = some ([5, 7].map zsW) ∧
    ([5, 7].map zsW).length = [5, 7].length ∧
    ∀ i : ℕ, ([5, 7].map zsW)[i]? = [5, 7][i]?.map zsW :=
  claim_C1_output_is_identity_aligned zsW [5, 7] 2 (by decide)

/-- C2: the derived `burn_exposed` flag is 1 exactly when the record exists,
its minimum is not the nodata sentinel 65535, and its valid-cell count
strictly exceeds its nodata-cell count; in every other case (null record
included) the flag is 0 — and the flag is never anything but 0 or 1. -/
theorem claim_C2_burn_exposed_rule (s : Option StatRecord) :
    (burn_exposed s = 1 ↔
      ∃ r, s = some r ∧ r.min ≠ some 65535 ∧ r.nodata.getD 0 < r.count) ∧
    ((¬ ∃ r, s = some r ∧ r.min ≠ some 65535 ∧ r.nodata.getD 0 < r.count) →
      burn_exposed s = 0) ∧
    (burn_exposed s = 0 ∨ burn_exposed s = 1) := by
  have hiff : burn_exposed s = 1 ↔
      ∃ r, s = some r ∧ r.min ≠ some 65535 ∧ r.nodata.getD 0 < r.count := by
    cases s with
    | none =>
      constructor
      · intro hx
        exact absurd hx (by decide)
      · rintro ⟨r, hr, -⟩
        exact absurd hr (by simp)
    | some r =>
      by_cases h : r.min ≠ some 65535 ∧ r.nodata.getD 0 < r.count
      · constructor
        · intro _
          exact ⟨r, rfl, h⟩
        · intro _
          simp only [burn_exposed, if_pos h]
      · constructor
        · intro hx
          have h0 : burn_exposed (some r) = 0 := by
            simp only [burn_exposed, if_neg h]
          rw [h0] at hx
          exact absurd hx (by decide)
        · rintro ⟨r', hr', hcond⟩
          have hrr : r = r' := by injection hr'
          subst hrr
          exact absurd hcond h
  refine ⟨hiff, ?_, burn_exposed_eq_zero_or_one s⟩
  intro hno
  rcases burn_exposed_eq_zero_or_one s with h0 | h1
  · exact h0
  · exact absurd (hiff.mp h1) hno

/-- C9: a non-null record lacking the `nodata` key is treated as having a
nodata count of 0, so it is classified exposed exactly when its minimum is
not 65535 and its valid-cell count is strictly positive. -/
theorem claim_C9_missing_nodata_key (r : StatRecord) (h : r.nodata = none) :
    burn_exposed (some r) = 1 ↔ (r.min ≠ some 65535 ∧ 0 < r.count) := by
  simp only [burn_exposed, h, Option.getD_none]
  by_cases hc : r.min ≠ some 65535 ∧ 0 < r.count
  · rw [if_pos hc]
    exact ⟨fun _ => hc, fun _ => rfl⟩
  · rw [if_neg hc]
    constructor
    · intro hx
      exact absurd hx (by decide)
    · intro hx
      exact absurd hx hc

theorem claim_C9_witness :
    (⟨some 2, some 1, 5, none⟩ : StatRecord).nodata = none ∧
    burn_exposed (some ⟨some 2, some 1, 5, none⟩) = 1 :=
  ⟨rfl, (claim_C9_missing_nodata_key ⟨some 2, some 1, 5, none⟩ rfl).mpr (by decide)⟩

/-- C10: for the empty input sequence and any positive chunk size, the run
returns the empty record list and the loop issues no `zonal_stats`
invocation at all (the batch list is empty). -/
theorem claim_C10_empty_input {γ : Type} (zs : γ → Option StatRecord) (c : ℕ)
    (hc : 0 < c) :
    run_chunked_zonal_stats zs ([] : List γ) c = some [] ∧
    run_chunked_zonal_stats_batches zs ([] : List γ) c = some ([], []) := by
  constructor
  · simpa using run_chunked_eq_map zs [] hc
  · have h := run_chunked_batches_eq zs ([] : List γ) hc
    rwa [chunks_nil, List.map_nil] at h

theorem claim_C10_witness :
    run_chunked_zonal_stats zsW ([] : List ℕ) 10000 = some [] ∧
    run_chunked_zonal_stats_batches zsW ([] : List ℕ) 10000 = some ([], []) :=
  claim_C10_empty_input zsW 10000 (by decide)

/-- C3 as literally stated is false at the empty input: "chunk size equal to
N" is then chunk size 0, which Python's `range` rejects with `ValueError`
(modelled `none`), while chunk size 1 returns the empty list. -/
theorem claim_C3_counterexample :
    run_chunked_zonal_stats (fun _ : Unit => none) ([] : List Unit)
        ([] : List Unit).length = none ∧
    run_chunked_zonal_stats (fun _ : Unit => none) ([] : List Unit) 1 = some [] ∧
    (none : Option (List (Option StatRecord))) ≠ some [] :=
  ⟨rfl, rfl, by decide⟩

/-- C3 (amended): for every pair of positive chunk sizes the run returns the
same record list, and in particular for a nonempty input, chunk size `N`
(one batch) agrees with chunk size 1 (`N` batches); only chunk size 0 — the
"single batch" reading of an empty input — errors instead. -/
theorem claim_C3_chunk_size_invariance {γ : Type} (zs : γ → Option StatRecord)
    (gdf : List γ) (c₁ c₂ : ℕ) (h₁ : 0 < c₁) (h₂ : 0 < c₂) :
    run_chunked_zonal_stats zs gdf c₁ = run_chunked_zonal_stats zs gdf c₂ ∧
    (gdf ≠ [] →
      run_chunked_zonal_stats zs gdf gdf.length = run_chunked_zonal_stats zs gdf 1) := by
  constructor
  · rw [run_chunked_eq_map zs gdf h₁, run_chunked_eq_map zs gdf h₂]
  · intro hne
    rw [run_chunked_eq_map zs gdf (List.length_pos.mpr hne),
      run_chunked_eq_map zs gdf (by decide)]

theorem claim_C3_witness :
    run_chunked_zonal_stats zsW [5, 7] 2 = run_chunked_zonal_stats zsW [5, 7] 3 ∧
    (([5, 7] : List ℕ) ≠ [] →
      run_chunked_zonal_stats zsW [5, 7] ([5, 7] : List ℕ).length
        = run_chunked_zonal_stats zsW [5, 7] 1) :=
  claim_C3_chunk_size_invariance zsW [5, 7] 2 3 (by decide) (by decide)

/-- C6: the run splits `[0, N)` into consecutive batches of size at most
`B = 10000` (the default), the `j`-th being the slice
`[j * B, min(j * B + B, N))`; it invokes `zonal_stats` once per batch in
order, and returns the concatenation of the per-batch record lists, in
order. -/
theorem claim_C6_batch_structure {γ : Type} (zs : γ → Option StatRecord)
    (gdf : List γ) (stats : List (Option StatRecord)) (batches : List (List γ))
    (h : run_chunked_zonal_stats_batches zs gdf chunk_size_default
      = some (stats, batches)) :
    chunk_size_default = 10000 ∧
    batches = chunks chunk_size_default gdf ∧
    (∀ (j : ℕ) (hj : j < batches.length),
      batches.get ⟨j, hj⟩
        = (gdf.drop (j * chunk_size_default)).take chunk_size_default) ∧
    (∀ b ∈ batches, b.length ≤ chunk_size_default) ∧
    batches.flatten = gdf ∧
    stats = (batches.map (zonal_stats zs)).flatten ∧
    run_chunked_zonal_stats zs gdf chunk_size_default = some stats := by
  rw [run_chunked_batches_eq zs gdf (by decide)] at h
  injection h with h
  have hstats : stats = gdf.map zs := by
    have h1 := congrArg Prod.fst h
    simpa using h1.symm
  have hbatch : batches = chunks chunk_size_default gdf := by
    have h2 := congrArg Prod.snd h
    simpa using h2.symm
  subst hstats
  subst hbatch
  refine ⟨rfl, rfl, ?_, ?_, ?_, ?_, ?_⟩
  · intro j hj
    simp [chunks, List.get_eq_getElem]
  · intro b hb
    exact chunks_length_le hb
  · exact chunks_join (by decide) gdf
  · have hzs : zonal_stats zs = List.map zs := rfl
    rw [hzs, ← List.map_flatten, chunks_join (by decide)]
  · exact run_chunked_eq_map zs gdf (by decide)

theorem claim_C6_witness :
    chunk_size_default = 10000 ∧
    ([[5, 7]] : List (List ℕ)) = chunks chunk_size_default [5, 7] ∧
    (∀ (j : ℕ) (hj : j < ([[5, 7]] : List (List ℕ)).length),
      ([[5, 7]] : List (List ℕ)).get ⟨j, hj⟩
        = (([5, 7] : List ℕ).drop (j * chunk_size_default)).take chunk_size_default) ∧
    (∀ b ∈ ([[5, 7]] : List (List ℕ)), b.length ≤ chunk_size_default) ∧
    ([[5, 7]] : List (List ℕ)).flatten = [5, 7] ∧
    [zsW 5, zsW 7] = (([[5, 7]] : List (List ℕ)).map (zonal_stats zsW)).flatten ∧
    run_chunked_zonal_stats zsW [5, 7] chunk_size_default = some [zsW 5, zsW 7] :=
  claim_C6_batch_structure zsW [5, 7] [zsW 5, zsW 7] [[5, 7]] (by decide)

/-- C4 as literally stated is false when all non-null means coincide: the
formula `(mean - min) / (max - min)` is then `0/0` — the script's float
division makes the entry NaN (null), not the formula's rational value. -/
theorem claim_C4_counterexample :
    seriesMin [some (3:ℚ), some 3] = some 3 ∧
    seriesMax [some (3:ℚ), some 3] = some 3 ∧
    burn_norm_series [some (3:ℚ), some 3] = [none, none] ∧
    (none : Option ℚ) ≠ some (((3:ℚ) - 3) / (3 - 3)) := by
  have h1 : seriesMin [some (3:ℚ), some 3] = some 3 := by decide
  have h2 : seriesMax [some (3:ℚ), some 3] = some 3 := by decide
  refine ⟨h1, h2, ?_, by simp⟩
  rw [burn_norm_series_eq_of_eq h1 h2]
  rfl

/-- C4 (amended): whenever the global minimum and maximum of the non-null
means differ, every non-null mean is normalized by
`(mean - min) / (max - min)` and every null mean keeps a null norm; when
they coincide, the float division `0.0 / 0.0` makes every norm null. -/
theorem claim_C4_minmax_formula (means : List (Option ℚ)) (a b : ℚ)
    (hmn : seriesMin means = some a) (hmx : seriesMax means = some b) :
    (a ≠ b →
      burn_norm_series means = means.map (Option.map fun x => (x - a) / (b - a))) ∧
    (a = b → burn_norm_series means = means.map fun _ => none) := by
  constructor
  · intro hab
    exact burn_norm_series_eq_of_ne hmn hmx hab
  · intro hab
    subst hab
    exact burn_norm_series_eq_of_eq hmn hmx

theorem claim_C4_witness :
    ((0:ℚ) ≠ 1 →
      burn_norm_series [some 0, some 1]
        = [some (0:ℚ), some 1].map (Option.map fun x => (x - 0) / (1 - 0))) ∧
    ((0:ℚ) = 1 →
      burn_norm_series [some 0, some 1] = [some (0:ℚ), some 1].map fun _ => none) :=
  claim_C4_minmax_formula [some 0, some 1] 0 1 (by decide) (by decide)

/-- C5 as literally stated is false for a feature set whose non-null means
all coincide (here a single feature with mean 5): that feature attains the
minimum and the maximum, yet its norm is null (`0.0 / 0.0`), not 0.0 or 1.0. -/
theorem claim_C5_counterexample :
    seriesMin [some (5:ℚ)] = some 5 ∧
    seriesMax [some (5:ℚ)] = some 5 ∧
    burn_norm_series [some (5:ℚ)] = [none] ∧
    (none : Option ℚ) ≠ some 0 ∧ (none : Option ℚ) ≠ some 1 := by
  have h1 : seriesMin [some (5:ℚ)] = some 5 := by decide
  have h2 : seriesMax [some (5:ℚ)] = some 5 := by decide
  refine ⟨h1, h2, ?_, by decide, by decide⟩
  rw [burn_norm_series_eq_of_eq h1 h2]
  rfl

/-- C5 (amended): when the observed minimum and maximum means differ, the
feature attaining the minimum gets norm 0.0 and the feature attaining the
maximum gets norm 1.0; an all-null mean column yields an all-null norm
column, and no division error can occur (the normalizer is total); if all
non-null means coincide, every norm is null instead. -/
theorem claim_C5_endpoints :
    (∀ (means : List (Option ℚ)) (a b : ℚ) (i j : ℕ),
      seriesMin means = some a → seriesMax means = some b → a ≠ b →
      means[i]? = some (some a) → means[j]? = some (some b) →
      (burn_norm_series means)[i]? = some (some 0) ∧
      (burn_norm_series means)[j]? = some (some 1)) ∧
    (∀ means : List (Option ℚ), (∀ m ∈ means, m = none) →
      burn_norm_series means = means.map fun _ => none) := by
  constructor
  · intro means a b i j hmn hmx hab hi hj
    rw [burn_norm_series_eq_of_ne hmn hmx hab]
    constructor
    · rw [List.getElem?_map, hi]
      simp
    · rw [List.getElem?_map, hj]
      simp [div_self (sub_ne_zero.mpr (Ne.symm hab))]
  · intro means h
    exact burn_norm_series_all_none h

theorem claim_C5_witness :
    ((burn_norm_series [some 0, some 1])[0]? = some (some 0) ∧
      (burn_norm_series [some 0, some 1])[1]? = some (some 1)) ∧
    burn_norm_series [none, none] = [none, none] := by
  refine ⟨claim_C5_endpoints.1 [some 0, some 1] 0 1 0 1 (by decide) (by decide)
    (by decide) (by decide) (by decide), ?_⟩
  have h := claim_C5_endpoints.2 [none, none] (by simp)
  simpa using h

/-- C7: every exported row's `burn_exposed` is the integer 0 or 1 (never
null, even for a null record), its `burn_mean` is a nullable rational by
construction, and its `burn_norm` is either null or a value in `[0, 1]`. -/
theorem claim_C7_export_column_invariants {A G : Type} (zs : G → Option StatRecord)
    (buffer : G → G) (pipe : List (PipeRow A G)) (out : List (ExportRow A G))
    (h : exportRows zs buffer pipe = some out) :
    ∀ row ∈ out,
      (row.burn_exposed = 0 ∨ row.burn_exposed = 1) ∧
      (∀ y : ℚ, row.burn_norm = some y → 0 ≤ y ∧ y ≤ 1) := by
  intro row hrow
  rcases List.mem_iff_getElem?.mp hrow with ⟨i, hi⟩
  have hlen : out.length = pipe.length := exportRows_length h
  have hip : i < pipe.length := by
    rcases Nat.lt_or_ge i out.length with hlt | hge
    · omega
    · rw [List.getElem?_eq_none hge] at hi
      exact absurd hi (by simp)
  have hq := exportRows_getElem? h i hip
  rw [hi] at hq
  injection hq with hq
  subst hq
  constructor
  · exact burn_exposed_eq_zero_or_one _
  · intro y hy
    have hy' : fdiv (fsub (burn_mean (zs (buffer ((pipe.get ⟨i, hip⟩).geometry))))
        (seriesMin (pipeMeans zs buffer pipe)))
        (fsub (seriesMax (pipeMeans zs buffer pipe))
          (seriesMin (pipeMeans zs buffer pipe))) = some y := hy
    have hm : burn_mean (zs (buffer ((pipe.get ⟨i, hip⟩).geometry)))
        ∈ pipeMeans zs buffer pipe := by
      unfold pipeMeans pipeStats
      exact List.mem_map_of_mem _
        (List.mem_map_of_mem _ (List.mem_map_of_mem _ (List.get_mem pipe i hip)))
    have hmem : fdiv (fsub (burn_mean (zs (buffer ((pipe.get ⟨i, hip⟩).geometry))))
        (seriesMin (pipeMeans zs buffer pipe)))
        (fsub (seriesMax (pipeMeans zs buffer pipe))
          (seriesMin (pipeMeans zs buffer pipe)))
        ∈ burn_norm_series (pipeMeans zs buffer pipe) := by
      unfold burn_norm_series
      exact List.mem_map_of_mem _ hm
    rw [hy'] at hmem
    exact burn_norm_series_bounds hmem

/-- C8: the exporter preserves every original attribute and the original
geometry of every row, and appends exactly the three derived scalar columns
(the transient buffer geometry is no field of the exported row type). -/
theorem claim_C8_export_frame {A G : Type} (zs : G → Option StatRecord)
    (buffer : G → G) (pipe : List (PipeRow A G)) (out : List (ExportRow A G))
    (h : exportRows zs buffer pipe = some out) :
    out.length = pipe.length ∧
    ∀ (i : ℕ) (hi : i < pipe.length) (ho : i < out.length),
      (out.get ⟨i, ho⟩).attrs = (pipe.get ⟨i, hi⟩).attrs ∧
      (out.get ⟨i, ho⟩).geometry = (pipe.get ⟨i, hi⟩).geometry ∧
      (out.get ⟨i, ho⟩).burn_mean
        = burn_mean (zs (buffer ((pipe.get ⟨i, hi⟩).geometry))) ∧
      (out.get ⟨i, ho⟩).burn_exposed
        = burn_exposed (zs (buffer ((pipe.get ⟨i, hi⟩).geometry))) ∧
      (out.get ⟨i, ho⟩).burn_norm
        = fdiv (fsub (burn_mean (zs (buffer ((pipe.get ⟨i, hi⟩).geometry))))
            (seriesMin (pipeMeans zs buffer pipe)))
            (fsub (seriesMax (pipeMeans zs buffer pipe))
              (seriesMin (pipeMeans zs buffer pipe))) := by
  refine ⟨exportRows_length h, ?_⟩
  intro i hi ho
  have hq := exportRows_getElem? h i hi
  rw [List.getElem?_eq_getElem ho] at hq
  injection hq with hq
  simp only [List.get_eq_getElem]
  rw [hq]
  exact ⟨rfl, rfl, rfl, rfl, rfl⟩

/-- Concrete inputs for the export-stage witnesses. -/
def zsW2 : ℕ → Option StatRecord := fun g => some ⟨some g, some 1, 3, some 0⟩

def pipeW : List (PipeRow ℕ ℕ) := [⟨0, 0⟩, ⟨1, 1⟩]

def outW : List (ExportRow ℕ ℕ) := [⟨0, 0, some 0, 1, some 0⟩, ⟨1, 1, some 1, 1, some 1⟩]

/-- The export pipeline evaluated on the concrete witness inputs. -/
theorem exportRows_concrete : exportRows zsW2 id pipeW = some outW := by
  have h1 : seriesMin (pipeMeans zsW2 id pipeW) = some 0 := by decide
  have h2 : seriesMax (pipeMeans zsW2 id pipeW) = some 1 := by decide
  have hb : burn_norm_series (pipeMeans zsW2 id pipeW) = [some 0, some 1] := by
    rw [burn_norm_series_eq_of_ne h1 h2 (by decide)]
    have hm : pipeMeans zsW2 id pipeW = [some 0, some 1] := by decide
    rw [hm]
    norm_num
  rw [exportRows_eq, hb]
  decide

theorem claim_C7_witness :
    ((⟨1, 1, some 1, 1, some 1⟩ : ExportRow ℕ ℕ).burn_exposed = 0 ∨
      (⟨1, 1, some 1, 1, some 1⟩ : ExportRow ℕ ℕ).burn_exposed = 1) ∧
    (∀ y : ℚ, (⟨1, 1, some 1, 1, some 1⟩ : ExportRow ℕ ℕ).burn_norm = some y →
      0 ≤ y ∧ y ≤ 1) :=
  claim_C7_export_column_invariants zsW2 id pipeW outW exportRows_concrete
    ⟨1, 1, some 1, 1, some 1⟩ (by decide)

theorem claim_C8_witness :
    outW.length = pipeW.length ∧
    ∀ (i : ℕ) (hi : i < pipeW.length) (ho : i < outW.length),
      (outW.get ⟨i, ho⟩).attrs = (pipeW.get ⟨i, hi⟩).attrs ∧
      (outW.get ⟨i, ho⟩).geometry = (pipeW.get ⟨i, hi⟩).geometry ∧
      (outW.get ⟨i, ho⟩).burn_mean
        = burn_mean (zsW2 (id ((pipeW.get ⟨i, hi⟩).geometry))) ∧
      (outW.get ⟨i, ho⟩).burn_exposed
        = burn_exposed (zsW2 (id ((pipeW.get ⟨i, hi⟩).geometry))) ∧
      (outW.get ⟨i, ho⟩).burn_norm
        = fdiv (fsub (burn_mean (zsW2 (id ((pipeW.get ⟨i, hi⟩).geometry))))
            (seriesMin (pipeMeans zsW2 id pipeW)))
            (fsub (seriesMax (pipeMeans zsW2 id pipeW))
              (seriesMin (pipeMeans zsW2 id pipeW))) :=
  claim_C8_export_frame zsW2 id pipeW outW exportRows_concrete
